import Mathlib

/-!
Verification of the "Historical Court" agent workflow
(`6630401240_myorder_hw_agents.py`).

The file shallowly embeds the three tool functions defined in the source
(`append_to_state`, `write_file`, `exit_loop`), the static agent/composite
configuration (names, tools, retry options, loop bound), and — where the
executing engine is the external `google.adk` library rather than repository
code — a model of composite execution taken from the specification.
-/

set_option autoImplicit false

/-! ## Shared state store

The ADK session state is a string-keyed mapping.  Within this program the
values ever stored are either bare Python strings or Python lists of strings,
so the value type is embedded as a sum of those two shapes. -/

/-- A value held in the shared session state: a bare string or a list of
strings (the only shapes this program ever stores). -/
inductive StateValue where
  | str (s : String)
  | list (l : List String)
deriving DecidableEq

/-- `true` exactly when the state value is a bare string. -/
def StateValue.isString : StateValue → Bool
  | StateValue.str _ => true
  | StateValue.list _ => false

/-- The session state: an association list from keys to values; an update
conses a fresh binding, and lookup takes the most recent binding, matching
mutable-dictionary semantics observationally. -/
def StateMap : Type := List (String × StateValue)

/-- `state.get(key)`: the most recent binding for `field`, if any. -/
def stateGet : StateMap → String → Option StateValue
  | [], _ => none
  | (k, v) :: t, field => if k = field then some v else stateGet t field

/-- `state.get(key, default)`. -/
def stateGetD (st : StateMap) (field : String) (d : StateValue) : StateValue :=
  (stateGet st field).getD d

/-- Embedding of `append_to_state` (source lines 27–34):
reads `state.get(field, [])`, concatenates `existing_state + [response]`,
stores the result back at `field`, and returns `{"status": "success"}`.
If the existing value is a bare string, the Python expression
`existing_state + [response]` raises `TypeError`, embedded as the error
branch. -/
def append_to_state (st : StateMap) (field response : String) :
    Except String (StateMap × List (String × String)) :=
  match stateGetD st field (StateValue.list []) with
  | StateValue.str _ => Except.error "TypeError"
  | StateValue.list l =>
      Except.ok ((field, StateValue.list (l ++ [response])) :: st,
        [("status", "success")])

/-! ## Filesystem model and `write_file`

The filesystem is idealized: a set-like list of existing directory paths and
an association list from file paths to contents (most recent binding wins,
giving overwrite semantics).  Path manipulation mirrors POSIX
`os.path.join` / `os.path.dirname`, and `makedirs` mirrors
`os.makedirs(..., exist_ok=True)` including its `FileNotFoundError` on the
empty path. -/

/-- Idealized filesystem state: existing directories and file contents. -/
structure FileSystem where
  dirs : List String
  files : List (String × String)
deriving DecidableEq

/-- Most recent content written at path `p`, if any. -/
def lookupFile : List (String × String) → String → Option String
  | [], _ => none
  | (k, v) :: t, p => if k = p then some v else lookupFile t p

/-- POSIX `os.path.join a b` for two components: `b` if `b` is absolute,
otherwise `a + b` when `a` is empty or ends in a slash, otherwise
`a + "/" + b`. -/
def osPathJoin (d f : String) : String :=
  if f.data.head? = some '/' then f
  else if d.data = [] then f
  else if d.data.getLast? = some '/' then String.mk (d.data ++ f.data)
  else String.mk (d.data ++ '/' :: f.data)

/-- Core of `os.path.dirname` on the reversed character list: drop the
basename (the characters after the last slash), then strip the trailing
slashes of the head unless the head is empty or all slashes. -/
def dirnameCore (rl : List Char) : List Char :=
  let rhead := rl.dropWhile (fun c => c != '/')
  if rhead.any (fun c => c != '/') then rhead.dropWhile (fun c => c == '/')
  else rhead

/-- POSIX `os.path.dirname p`: the part of `p` before its last slash, with
trailing slashes stripped unless the head is empty or all slashes. -/
def osPathDirname (p : String) : String :=
  String.mk (dirnameCore p.data.reverse).reverse

/-- Fueled embedding of `os.makedirs(name, exist_ok=True)`: recursively
create the parent (when it is a proper, nonexistent, nonempty proper
ancestor), then create `name` itself; `mkdir("")` raises
`FileNotFoundError`. -/
def makedirsAux : Nat → FileSystem → String → Except String FileSystem
  | 0, _, _ => Except.error "RecursionError"
  | fuel + 1, fs, name =>
    let head := osPathDirname name
    let afterParent : Except String FileSystem :=
      if head ≠ "" ∧ head ≠ name ∧ head ∉ fs.dirs then makedirsAux fuel fs head
      else Except.ok fs
    match afterParent with
    | Except.error e => Except.error e
    | Except.ok fs1 =>
        if name = "" then Except.error "FileNotFoundError"
        else Except.ok (FileSystem.mk (name :: fs1.dirs) fs1.files)

/-- `os.makedirs(name, exist_ok=True)` with enough fuel to terminate. -/
def makedirs (fs : FileSystem) (name : String) : Except String FileSystem :=
  makedirsAux (name.data.length + 1) fs name

/-- Embedding of `write_file` (source lines 36–48): computes
`target_path = os.path.join(directory, filename)`, runs
`os.makedirs(os.path.dirname(target_path), exist_ok=True)`, writes the
content at `target_path` (overwriting), and returns
`{"status": "success"}`.  Raised I/O errors are the error branch. -/
def write_file (fs : FileSystem) (directory filename content : String) :
    Except String (FileSystem × List (String × String)) :=
  let target_path := osPathJoin directory filename
  match makedirs fs (osPathDirname target_path) with
  | Except.error e => Except.error e
  | Except.ok fs1 =>
      Except.ok (FileSystem.mk fs1.dirs ((target_path, content) :: fs1.files),
        [("status", "success")])

/-! ## `exit_loop` and the tool context flag -/

/-- The slice of `ToolContext` the `exit_loop` tool touches: the boolean
loop-termination flag it sets. -/
structure ToolContext where
  exitLoop : Bool
deriving DecidableEq

/-- Embedding of `exit_loop` (source lines 50–53): sets the loop-control
flag on the tool context and returns `{"status": "exited loop"}`; it has no
other effect. -/
def exit_loop (_tc : ToolContext) : ToolContext × List (String × String) :=
  (ToolContext.mk true, [("status", "exited loop")])

/-! ## Static agent configuration

The remainder of the source file is wiring: each `Agent`, `ParallelAgent`,
`LoopAgent` and `SequentialAgent` construction is embedded as a value of an
agent-tree type recording the configuration the claims mention: names, held
tools, retry options, sub-agents, and the loop iteration bound. -/

/-- The tools appearing in the source: the two state/file tools defined
there, the loop-exit tool, and the wrapped Wikipedia query tool. -/
inductive Tool where
  | append_to_state
  | write_file
  | exit_loop
  | wikipedia
deriving DecidableEq

/-- `retry_options={"initial_delay": 1, "attempts": 2}` as passed to each
`Gemini(...)` model constructor. -/
structure RetryOptions where
  initial_delay : Nat
  attempts : Nat
deriving DecidableEq

/-- A unit of the workflow: a leaf `Agent` (with optional model retry
options, tools, and transfer sub-agents), or a sequential / parallel / loop
composite. -/
inductive AgentUnit where
  | leaf (name : String) (retry : Option RetryOptions) (tools : List Tool)
      (sub_agents : List AgentUnit)
  | seq (name : String) (sub_agents : List AgentUnit)
  | par (name : String) (sub_agents : List AgentUnit)
  | loop (name : String) (max_iterations : Nat) (sub_agents : List AgentUnit)

/-- `admirer_researcher` (source lines 58–72). -/
def admirer_researcher : AgentUnit :=
  AgentUnit.leaf "admirer_researcher" (some (RetryOptions.mk 1 2))
    [Tool.wikipedia, Tool.append_to_state] []

/-- `critic_researcher` (source lines 74–88). -/
def critic_researcher : AgentUnit :=
  AgentUnit.leaf "critic_researcher" (some (RetryOptions.mk 1 2))
    [Tool.wikipedia, Tool.append_to_state] []

/-- `investigation_team` (source lines 90–94). -/
def investigation_team : AgentUnit :=
  AgentUnit.par "investigation_team" [admirer_researcher, critic_researcher]

/-- `judge` (source lines 97–112). -/
def judge : AgentUnit :=
  AgentUnit.leaf "judge" (some (RetryOptions.mk 1 2)) [Tool.exit_loop] []

/-- `trial_and_review` (source lines 114–119): a `LoopAgent` over
`[investigation_team, judge]` with `max_iterations=3`. -/
def trial_and_review : AgentUnit :=
  AgentUnit.loop "trial_and_review" 3 [investigation_team, judge]

/-- `verdict_writer` (source lines 122–139). -/
def verdict_writer : AgentUnit :=
  AgentUnit.leaf "verdict_writer" (some (RetryOptions.mk 1 2))
    [Tool.write_file] []

/-- `historical_court` (source lines 142–149). -/
def historical_court : AgentUnit :=
  AgentUnit.seq "historical_court" [trial_and_review, verdict_writer]

/-- `root_agent` / `inquiry_clerk` (source lines 151–163). -/
def root_agent : AgentUnit :=
  AgentUnit.leaf "inquiry_clerk" (some (RetryOptions.mk 1 2))
    [Tool.append_to_state] [historical_court]

/-- All units defined in the source file. -/
def allUnits : List AgentUnit :=
  [root_agent, historical_court, trial_and_review, investigation_team,
   admirer_researcher, critic_researcher, judge, verdict_writer]

/-- The tools a unit itself holds (composites hold none). -/
def unitTools : AgentUnit → List Tool
  | AgentUnit.leaf _ _ ts _ => ts
  | _ => []

/-- The retry options of a unit's reasoning model (composites have no
model). -/
def agentRetry : AgentUnit → Option RetryOptions
  | AgentUnit.leaf _ r _ _ => r
  | _ => none

/-- A unit's direct children. -/
def unitSubAgents : AgentUnit → List AgentUnit
  | AgentUnit.leaf _ _ _ subs => subs
  | AgentUnit.seq _ subs => subs
  | AgentUnit.par _ subs => subs
  | AgentUnit.loop _ _ subs => subs

/-- A loop composite's configured iteration bound (0 for other units). -/
def unitMaxIterations : AgentUnit → Nat
  | AgentUnit.loop _ m _ => m
  | _ => 0

/-! ## Loop composite semantics

Modelled from the spec: the `LoopAgent` execution engine lives in the
external `google.adk` library, not in this repository.  Per spec §4.5, the
loop repeats its fixed child sequence; after each full iteration it reads
the loop-control signal, terminating when the signal is set or when the
iteration count reaches the configured maximum, whichever occurs first. -/

/-- Modelled from the spec: the indices of the iterations a loop composite
executes, starting from `k`, with `fuel` iterations remaining and `sig i`
the loop-control signal observed after iteration `i`. -/
def loopRunFrom : Nat → Nat → (Nat → Bool) → List Nat
  | 0, _, _ => []
  | fuel + 1, k, sig => k :: (if sig k then [] else loopRunFrom fuel (k + 1) sig)

/-- Modelled from the spec: the loop-control signal after iteration `k`,
given which iterations invoke the `exit_loop` capability — the flag the
`exit_loop` tool sets on a fresh tool context, `false` when the tool was
not invoked. -/
def iterationSignal (invokes : Nat → Bool) (k : Nat) : Bool :=
  if invokes k then (exit_loop (ToolContext.mk false)).1.exitLoop else false

/-- Modelled from the spec: the iterations (of the child sequence
`investigation_team` then `judge`) executed by the `trial_and_review`
loop composite, under oracle `invokes` saying in which iterations the
judge invokes `exit_loop`. -/
def trial_and_review_run (invokes : Nat → Bool) : List Nat :=
  loopRunFrom (unitMaxIterations trial_and_review) 0 (iterationSignal invokes)

/-! ## Run relation for composites

Modelled from the spec: the composite execution engine (`SequentialAgent`,
`ParallelAgent`, `LoopAgent`, agent transfer) is external library code.
`Runs u r` over-approximates the possible executions of unit `u`:
`r` records whether the run succeeded or failed fatally and which tools
were invoked before completion/failure.  A leaf invokes only tools it
holds (and may transfer to a sub-agent); a sequential composite stops at
the first failing child; a parallel composite merges children's results;
a loop repeats its child sequence.  Over-approximation is sound here: the
claims proved from it are non-invocation guarantees. -/

/-- Outcome of a run: success or fatal failure, with the tools invoked. -/
inductive RunResult where
  | success (invoked : List Tool)
  | failure (invoked : List Tool)

/-- The tools invoked during a run. -/
def RunResult.invoked : RunResult → List Tool
  | RunResult.success ts => ts
  | RunResult.failure ts => ts

/-- Prefix a run result's invoked tools with `ts`. -/
def RunResult.prepend (ts : List Tool) : RunResult → RunResult
  | RunResult.success us => RunResult.success (ts ++ us)
  | RunResult.failure us => RunResult.failure (ts ++ us)

/-- Merge two parallel results: failure if either failed. -/
def RunResult.merge : RunResult → RunResult → RunResult
  | RunResult.success a, RunResult.success b => RunResult.success (a ++ b)
  | RunResult.success a, RunResult.failure b => RunResult.failure (a ++ b)
  | RunResult.failure a, RunResult.success b => RunResult.failure (a ++ b)
  | RunResult.failure a, RunResult.failure b => RunResult.failure (a ++ b)

/-- Modelled from the spec: possible runs of a unit (see section header). -/
inductive Runs : AgentUnit → RunResult → Prop where
  | leaf_done {n : String} {ro : Option RetryOptions} {ts : List Tool}
      {subs : List AgentUnit} {invoked : List Tool} :
      invoked ⊆ ts → Runs (AgentUnit.leaf n ro ts subs) (RunResult.success invoked)
  | leaf_fail {n : String} {ro : Option RetryOptions} {ts : List Tool}
      {subs : List AgentUnit} {invoked : List Tool} :
      invoked ⊆ ts → Runs (AgentUnit.leaf n ro ts subs) (RunResult.failure invoked)
  | leaf_transfer {n : String} {ro : Option RetryOptions} {ts : List Tool}
      {subs : List AgentUnit} {invoked : List Tool} {sub : AgentUnit}
      {r : RunResult} :
      invoked ⊆ ts → sub ∈ subs → Runs sub r →
      Runs (AgentUnit.leaf n ro ts subs) (RunResult.prepend invoked r)
  | seq_nil {n : String} : Runs (AgentUnit.seq n []) (RunResult.success [])
  | seq_fail {n : String} {c : AgentUnit} {cs : List AgentUnit}
      {invoked : List Tool} :
      Runs c (RunResult.failure invoked) →
      Runs (AgentUnit.seq n (c :: cs)) (RunResult.failure invoked)
  | seq_cons {n : String} {c : AgentUnit} {cs : List AgentUnit}
      {invoked : List Tool} {r : RunResult} :
      Runs c (RunResult.success invoked) → Runs (AgentUnit.seq n cs) r →
      Runs (AgentUnit.seq n (c :: cs)) (RunResult.prepend invoked r)
  | par_nil {n : String} : Runs (AgentUnit.par n []) (RunResult.success [])
  | par_cons {n : String} {c : AgentUnit} {cs : List AgentUnit}
      {rc r : RunResult} :
      Runs c rc → Runs (AgentUnit.par n cs) r →
      Runs (AgentUnit.par n (c :: cs)) (RunResult.merge rc r)
  | loop_stop {n : String} {m : Nat} {cs : List AgentUnit} {ts : List Tool} :
      Runs (AgentUnit.seq n cs) (RunResult.success ts) →
      Runs (AgentUnit.loop n m cs) (RunResult.success ts)
  | loop_fail {n : String} {m : Nat} {cs : List AgentUnit} {ts : List Tool} :
      Runs (AgentUnit.seq n cs) (RunResult.failure ts) →
      Runs (AgentUnit.loop n m cs) (RunResult.failure ts)
  | loop_iter {n : String} {m : Nat} {cs : List AgentUnit} {ts : List Tool}
      {r : RunResult} :
      Runs (AgentUnit.seq n cs) (RunResult.success ts) →
      Runs (AgentUnit.loop n m cs) r →
      Runs (AgentUnit.loop n m cs) (RunResult.prepend ts r)

/-- Subtrees in which no unit holds the `write_file` tool. -/
inductive NoWrite : AgentUnit → Prop where
  | leaf {n : String} {ro : Option RetryOptions} {ts : List Tool}
      {subs : List AgentUnit} :
      Tool.write_file ∉ ts → (∀ s ∈ subs, NoWrite s) →
      NoWrite (AgentUnit.leaf n ro ts subs)
  | seq {n : String} {cs : List AgentUnit} :
      (∀ c ∈ cs, NoWrite c) → NoWrite (AgentUnit.seq n cs)
  | par {n : String} {cs : List AgentUnit} :
      (∀ c ∈ cs, NoWrite c) → NoWrite (AgentUnit.par n cs)
  | loop {n : String} {m : Nat} {cs : List AgentUnit} :
      (∀ c ∈ cs, NoWrite c) → NoWrite (AgentUnit.loop n m cs)

/-! ## Theorems: state store claims -/

/-- Claim C1: for every state store, key `field`, and string `response`,
`append_to_state` sets the value at `field` to the previously stored
sequence (defaulting to the empty sequence when the key is absent) with
`response` appended at the end; hence prior entries are preserved as a
prefix and the sequence's length only grows. -/
theorem append_preserves_entries (st : StateMap) (field response : String)
    (l : List String)
    (h : stateGet st field = some (StateValue.list l) ∨
      (stateGet st field = none ∧ l = [])) :
    ∃ st2, append_to_state st field response =
        Except.ok (st2, [("status", "success")]) ∧
      stateGet st2 field = some (StateValue.list (l ++ [response])) ∧
      (∃ t, l ++ t = l ++ [response]) ∧
      l.length < (l ++ [response]).length := by
  have hget : stateGetD st field (StateValue.list []) = StateValue.list l := by
    rcases h with h | ⟨h, rfl⟩ <;> simp [stateGetD, h]
  refine ⟨(field, StateValue.list (l ++ [response])) :: st, ?_, ?_,
    ⟨[response], rfl⟩, by simp⟩
  · simp [append_to_state, hget]
  · simp [stateGet]

/-- Concrete instance of `append_preserves_entries` at a one-entry store. -/
theorem append_preserves_entries_witness :
    ∃ st2, append_to_state [("pos_data", StateValue.list ["a"])] "pos_data" "b" =
        Except.ok (st2, [("status", "success")]) ∧
      stateGet st2 "pos_data" = some (StateValue.list (["a"] ++ ["b"])) ∧
      (∃ t, ["a"] ++ t = ["a"] ++ ["b"]) ∧
      (["a"] : List String).length < ((["a"] : List String) ++ ["b"]).length :=
  append_preserves_entries [("pos_data", StateValue.list ["a"])] "pos_data" "b"
    ["a"] (Or.inl (by decide))

/-- Claim C8: if the key is absent or holds a sequence, `append_to_state`
succeeds with `{"status": "success"}` and leaves a sequence at the key;
if the key holds a bare string, the concatenation raises `TypeError`.  So
every key written through `append_to_state` holds a sequence, never a bare
string. -/
theorem append_type_safety (st : StateMap) (field response : String) :
    ((stateGet st field = none ∨
        ∃ l, stateGet st field = some (StateValue.list l)) →
      ∃ st2, append_to_state st field response =
          Except.ok (st2, [("status", "success")]) ∧
        ∃ l2, stateGet st2 field = some (StateValue.list l2)) ∧
    (∀ s, stateGet st field = some (StateValue.str s) →
      append_to_state st field response = Except.error "TypeError") := by
  constructor
  · intro h
    have hex : ∃ l, stateGetD st field (StateValue.list []) = StateValue.list l := by
      rcases h with h | ⟨l, h⟩
      · exact ⟨[], by simp [stateGetD, h]⟩
      · exact ⟨l, by simp [stateGetD, h]⟩
    obtain ⟨l, hl⟩ := hex
    refine ⟨(field, StateValue.list (l ++ [response])) :: st, ?_,
      ⟨l ++ [response], ?_⟩⟩
    · simp [append_to_state, hl]
    · simp [stateGet]
  · intro s hs
    simp [append_to_state, stateGetD, hs]

/-- Concrete instance of `append_type_safety`: appending to a key holding a
bare string raises `TypeError`. -/
theorem append_type_safety_witness :
    append_to_state [("TOPIC", StateValue.str "x")] "TOPIC" "v" =
      Except.error "TypeError" :=
  (append_type_safety [("TOPIC", StateValue.str "x")] "TOPIC" "v").2 "x"
    (by decide)

/-- Claim C9: `append_to_state` modifies only the entry at `field`; every
other key maps to the same value after the call as before it. -/
theorem append_frame (st : StateMap) (field response k : String)
    (st2 : StateMap) (ret : List (String × String)) (hk : k ≠ field)
    (h : append_to_state st field response = Except.ok (st2, ret)) :
    stateGet st2 k = stateGet st k := by
  unfold append_to_state at h
  cases hg : stateGetD st field (StateValue.list []) with
  | str s => rw [hg] at h; exact absurd h (by simp)
  | list l =>
    rw [hg] at h
    have hst2 : st2 = (field, StateValue.list (l ++ [response])) :: st := by
      have := (Except.ok.injEq _ _).mp h
      exact (Prod.mk.injEq _ _ _ _).mp this |>.1.symm
    subst hst2
    simp only [stateGet]
    rw [if_neg (fun hh => hk hh.symm)]

/-- Concrete instance of `append_frame`: appending under `"b"` leaves the
value under `"a"` unchanged. -/
theorem append_frame_witness :
    stateGet [("b", StateValue.list ["v"]), ("a", StateValue.list [])] "a" =
      stateGet [("a", StateValue.list [])] "a" :=
  append_frame [("a", StateValue.list [])] "b" "v" "a"
    [("b", StateValue.list ["v"]), ("a", StateValue.list [])]
    [("status", "success")] (by decide) rfl

/-- Counterexample to claim C5: the orchestrator persists the topic with
`append_to_state`, so the value stored under `TOPIC` is a one-element
sequence, not a bare string. -/
theorem topic_stored_counterexample :
    append_to_state [] "TOPIC" "Napoleon" =
      Except.ok ([("TOPIC", StateValue.list ["Napoleon"])],
        [("status", "success")]) ∧
    StateValue.isString (StateValue.list ["Napoleon"]) = false :=
  ⟨rfl, rfl⟩

/-- Claim C5 (amended): after the orchestrator persists the user's topic
into a fresh state store via `append_to_state`, the value under `TOPIC` is
the singleton sequence holding the topic string — a sequence, not a bare
string. -/
theorem topic_stored_as_singleton_list (topic : String) :
    ∃ st2, append_to_state [] "TOPIC" topic =
        Except.ok (st2, [("status", "success")]) ∧
      stateGet st2 "TOPIC" = some (StateValue.list [topic]) ∧
      (stateGet st2 "TOPIC").map StateValue.isString = some false := by
  refine ⟨[("TOPIC", StateValue.list [topic])], rfl, ?_, ?_⟩ <;>
    simp [stateGet, StateValue.isString]

/-! ## Theorems: configuration claims -/

/-- Claim C7: every reasoning-backed agent in the workflow
(`admirer_researcher`, `critic_researcher`, `judge`, `verdict_writer`, and
the root agent) is configured with retry options of exactly 2 attempts and
initial delay 1; and no unit in the workflow carries any other retry
configuration. -/
theorem retry_policy_config :
    agentRetry admirer_researcher = some (RetryOptions.mk 1 2) ∧
    agentRetry critic_researcher = some (RetryOptions.mk 1 2) ∧
    agentRetry judge = some (RetryOptions.mk 1 2) ∧
    agentRetry verdict_writer = some (RetryOptions.mk 1 2) ∧
    agentRetry root_agent = some (RetryOptions.mk 1 2) ∧
    allUnits.all (fun u =>
      match agentRetry u with
      | none => true
      | some r => r.attempts == 2 && r.initial_delay == 1) = true :=
  ⟨rfl, rfl, rfl, rfl, rfl, rfl⟩

/-! ## Theorems: loop claims -/

/-- A loop run with `fuel` iterations remaining executes at most `fuel`
iterations. -/
theorem loopRunFrom_length_le (fuel : Nat) :
    ∀ (k : Nat) (sig : Nat → Bool), (loopRunFrom fuel k sig).length ≤ fuel := by
  induction fuel with
  | zero => intro k sig; simp [loopRunFrom]
  | succ fuel ih =>
    intro k sig
    by_cases h : sig k = true <;> simp [loopRunFrom, h]
    exact ih (k + 1) sig

/-- Claim C2: `trial_and_review` is the loop composite over
`[investigation_team, judge]` with configured maximum 3, and every run of
it executes at most 3 iterations of that child sequence, regardless of
whether the exit-loop capability is ever invoked. -/
theorem trial_loop_bounded (invokes : Nat → Bool) :
    unitSubAgents trial_and_review = [investigation_team, judge] ∧
    unitMaxIterations trial_and_review = 3 ∧
    (trial_and_review_run invokes).length ≤ 3 :=
  ⟨rfl, rfl, loopRunFrom_length_le 3 0 (iterationSignal invokes)⟩

/-- Every iteration strictly before an executed iteration `j` had its
loop-control signal unset. -/
theorem loopRunFrom_sig_false_before (fuel : Nat) :
    ∀ (start : Nat) (sig : Nat → Bool) (j : Nat),
      j ∈ loopRunFrom fuel start sig →
      start ≤ j ∧ ∀ i, start ≤ i → i < j → sig i = false := by
  induction fuel with
  | zero => intro start sig j hj; simp [loopRunFrom] at hj
  | succ fuel ih =>
    intro start sig j hj
    rw [loopRunFrom] at hj
    rcases List.mem_cons.mp hj with rfl | hj2
    · exact ⟨Nat.le_refl _, fun i h1 h2 => absurd h1 (Nat.not_le.mpr h2)⟩
    · by_cases hs : sig start = true
      · simp [hs] at hj2
      · simp only [if_neg hs] at hj2
        obtain ⟨h1, h2⟩ := ih (start + 1) sig j hj2
        refine ⟨Nat.le_trans (Nat.le_succ _) h1, fun i hi1 hi2 => ?_⟩
        rcases Nat.eq_or_lt_of_le hi1 with rfl | hlt
        · exact Bool.eq_false_iff.mpr (fun hc => hs hc)
        · exact h2 i hlt hi2

/-- Claim C3: if the `exit_loop` capability is invoked during iteration
`k` of `trial_and_review` and iteration `k` executes, then no iteration
`k + 1` executes: the flag `exit_loop` sets is observed after the
iteration and terminates the loop. -/
theorem exit_loop_terminates_loop (invokes : Nat → Bool) (k : Nat)
    (hk : invokes k = true) (_hmem : k ∈ trial_and_review_run invokes) :
    k + 1 ∉ trial_and_review_run invokes := by
  intro hmem2
  obtain ⟨-, h2⟩ := loopRunFrom_sig_false_before _ _ _ _ hmem2
  have hfalse : iterationSignal invokes k = false :=
    h2 k (Nat.zero_le _) (Nat.lt_succ_self _)
  rw [iterationSignal, hk] at hfalse
  simp [exit_loop] at hfalse

/-- Concrete instance of `exit_loop_terminates_loop`: with `exit_loop`
invoked in iteration 1, iteration 2 does not execute. -/
theorem exit_loop_terminates_loop_witness :
    1 + 1 ∉ trial_and_review_run (fun n => n == 1) :=
  exit_loop_terminates_loop (fun n => n == 1) 1 rfl (by decide)

/-! ## Theorems: report-file / upstream-failure claim -/

/-- Invoked tools of a prefixed run result. -/
theorem RunResult.invoked_prepend (ts : List Tool) (r : RunResult) :
    (RunResult.prepend ts r).invoked = ts ++ r.invoked := by
  cases r <;> rfl

/-- Invoked tools of a merged run result. -/
theorem RunResult.invoked_merge (a b : RunResult) :
    (RunResult.merge a b).invoked = a.invoked ++ b.invoked := by
  cases a <;> cases b <;> rfl

/-- A run of a subtree none of whose units holds `write_file` never invokes
`write_file`. -/
theorem runs_no_write {u : AgentUnit} {r : RunResult} (hr : Runs u r)
    (hnw : NoWrite u) : Tool.write_file ∉ r.invoked := by
  induction hr with
  | leaf_done hsub =>
    cases hnw with | leaf hts hall => exact fun hm => hts (hsub hm)
  | leaf_fail hsub =>
    cases hnw with | leaf hts hall => exact fun hm => hts (hsub hm)
  | leaf_transfer hsub hsmem hrun ih =>
    cases hnw with
    | leaf hts hall =>
      rw [RunResult.invoked_prepend]
      intro hm
      rcases List.mem_append.mp hm with hm | hm
      · exact hts (hsub hm)
      · exact ih (hall _ hsmem) hm
  | seq_nil => simp [RunResult.invoked]
  | seq_fail hrun ih =>
    cases hnw with
    | seq hall => exact ih (hall _ (List.mem_cons_self _ _))
  | seq_cons h1 h2 ih1 ih2 =>
    cases hnw with
    | seq hall =>
      rw [RunResult.invoked_prepend]
      intro hm
      rcases List.mem_append.mp hm with hm | hm
      · exact ih1 (hall _ (List.mem_cons_self _ _)) hm
      · exact ih2 (NoWrite.seq fun c hc => hall c (List.mem_cons_of_mem _ hc)) hm
  | par_nil => simp [RunResult.invoked]
  | par_cons h1 h2 ih1 ih2 =>
    cases hnw with
    | par hall =>
      rw [RunResult.invoked_merge]
      intro hm
      rcases List.mem_append.mp hm with hm | hm
      · exact ih1 (hall _ (List.mem_cons_self _ _)) hm
      · exact ih2 (NoWrite.par fun c hc => hall c (List.mem_cons_of_mem _ hc)) hm
  | loop_stop h ih =>
    cases hnw with | loop hall => exact ih (NoWrite.seq hall)
  | loop_fail h ih =>
    cases hnw with | loop hall => exact ih (NoWrite.seq hall)
  | loop_iter h1 h2 ih1 ih2 =>
    cases hnw with
    | loop hall =>
      rw [RunResult.invoked_prepend]
      intro hm
      rcases List.mem_append.mp hm with hm | hm
      · exact ih1 (NoWrite.seq hall) hm
      · exact ih2 (NoWrite.loop hall) hm

/-- No unit inside `trial_and_review` holds the `write_file` tool. -/
theorem noWrite_trial_and_review : NoWrite trial_and_review := by
  have hadm : NoWrite admirer_researcher :=
    NoWrite.leaf (by decide) (by intro s hs; simp at hs)
  have hcri : NoWrite critic_researcher :=
    NoWrite.leaf (by decide) (by intro s hs; simp at hs)
  have hjud : NoWrite judge :=
    NoWrite.leaf (by decide) (by intro s hs; simp at hs)
  have hteam : NoWrite investigation_team := by
    refine NoWrite.par ?_
    intro c hc
    rcases List.mem_cons.mp hc with rfl | hc2
    · exact hadm
    rcases List.mem_cons.mp hc2 with rfl | hc3
    · exact hcri
    · simp at hc3
  refine NoWrite.loop ?_
  intro c hc
  rcases List.mem_cons.mp hc with rfl | hc2
  · exact hteam
  rcases List.mem_cons.mp hc2 with rfl | hc3
  · exact hjud
  · simp at hc3

/-- Claim C6: `verdict_writer` is the sole unit of the workflow holding the
`write_file` tool, and any run in which the unit preceding it
(`trial_and_review`, covering everything upstream) fails fatally never
invokes `write_file` — so no report file is produced. -/
theorem write_file_only_verdict_writer :
    (∀ u ∈ allUnits, Tool.write_file ∈ unitTools u → u = verdict_writer) ∧
    (∀ ts, Runs trial_and_review (RunResult.failure ts) →
      Tool.write_file ∉ ts) := by
  constructor
  · intro u hu
    simp only [allUnits, List.mem_cons, List.not_mem_nil, or_false] at hu
    rcases hu with rfl | rfl | rfl | rfl | rfl | rfl | rfl | rfl <;> intro h <;>
      first
      | rfl
      | exact absurd h (by decide)
  · intro ts hrun
    exact runs_no_write hrun noWrite_trial_and_review

/-- Concrete instance of `write_file_only_verdict_writer`: a failing run of
`trial_and_review` (the admirer's reasoning call failing fatally before any
tool call) invokes no `write_file`. -/
theorem write_file_only_verdict_writer_witness :
    Tool.write_file ∉ ([] : List Tool) := by
  have hadm : Runs admirer_researcher (RunResult.failure []) :=
    Runs.leaf_fail (List.nil_subset _)
  have hcri : Runs critic_researcher (RunResult.success []) :=
    Runs.leaf_done (List.nil_subset _)
  have hpar1 : Runs (AgentUnit.par "investigation_team" [critic_researcher])
      (RunResult.success []) :=
    Runs.par_cons hcri Runs.par_nil
  have hteam : Runs investigation_team (RunResult.failure []) :=
    Runs.par_cons hadm hpar1
  have hseq : Runs (AgentUnit.seq "trial_and_review" [investigation_team, judge])
      (RunResult.failure []) := Runs.seq_fail hteam
  have hloop : Runs trial_and_review (RunResult.failure []) :=
    Runs.loop_fail hseq
  exact write_file_only_verdict_writer.2 [] hloop

/-! ## Path lemmas for the `write_file` claims -/

/-- `dropWhile` never lengthens a list. -/
theorem dropWhile_length_le (q : Char → Bool) (l : List Char) :
    (l.dropWhile q).length ≤ l.length := by
  induction l with
  | nil => simp
  | cons a t ih =>
    rw [List.dropWhile_cons]
    by_cases h : q a = true
    · rw [if_pos h]; exact Nat.le_trans ih (Nat.le_succ _)
    · rw [if_neg h]

/-- `dropWhile` either leaves the list unchanged or strictly shortens it. -/
theorem dropWhile_eq_or_lt (q : Char → Bool) (l : List Char) :
    l.dropWhile q = l ∨ (l.dropWhile q).length < l.length := by
  cases l with
  | nil => exact Or.inl rfl
  | cons a t =>
    rw [List.dropWhile_cons]
    by_cases h : q a = true
    · rw [if_pos h]
      exact Or.inr (Nat.lt_succ_of_le (dropWhile_length_le q t))
    · rw [if_neg h]
      exact Or.inl rfl

/-- The head of a nonempty `dropWhile` result fails the predicate. -/
theorem dropWhile_head_not (q : Char → Bool) (l : List Char) (a : Char)
    (t : List Char) (h : l.dropWhile q = a :: t) : q a = false := by
  induction l with
  | nil => simp at h
  | cons b s ih =>
    rw [List.dropWhile_cons] at h
    by_cases hb : q b = true
    · rw [if_pos hb] at h; exact ih h
    · rw [if_neg hb] at h
      injection h with h1 h2
      subst h1
      exact Bool.eq_false_iff.mpr hb

/-- Dropping up to the first slash through a slash-free block lands exactly
on the slash. -/
theorem dropWhile_append_slash (r : List Char) :
    ∀ l : List Char, (∀ x ∈ l, x ≠ '/') →
      (l ++ '/' :: r).dropWhile (fun c => c != '/') = '/' :: r := by
  intro l
  induction l with
  | nil =>
    intro _
    rw [List.nil_append, List.dropWhile_cons]
    simp
  | cons a t ih =>
    intro h
    rw [List.cons_append, List.dropWhile_cons]
    have ha : a ≠ '/' := h a (List.mem_cons_self _ _)
    rw [if_pos (bne_iff_ne.mpr ha)]
    exact ih (fun x hx => h x (List.mem_cons_of_mem _ hx))

/-- `dirnameCore` either leaves its input unchanged or strictly shortens
it. -/
theorem dirnameCore_eq_or_lt (rl : List Char) :
    dirnameCore rl = rl ∨ (dirnameCore rl).length < rl.length := by
  unfold dirnameCore
  rcases dropWhile_eq_or_lt (fun c => c != '/') rl with heq | hlt
  · rw [heq]
    by_cases hany : rl.any (fun c => c != '/') = true
    · rw [if_pos hany]
      right
      cases rl with
      | nil => simp at hany
      | cons a t =>
        have ha : ((fun c => c != '/') a) = false :=
          dropWhile_head_not (fun c => c != '/') (a :: t) a t heq
        have ha2 : (a == '/') = true := by
          simp only [bne] at ha
          simpa using ha
        rw [List.dropWhile_cons, if_pos ha2]
        exact Nat.lt_succ_of_le (dropWhile_length_le _ _)
    · rw [if_neg hany]
      exact Or.inl rfl
  · by_cases hany :
        (rl.dropWhile (fun c => c != '/')).any (fun c => c != '/') = true
    · rw [if_pos hany]
      exact Or.inr (Nat.lt_of_le_of_lt (dropWhile_length_le _ _) hlt)
    · rw [if_neg hany]
      exact Or.inr hlt

/-- `osPathDirname` either fixes its argument or strictly shortens it. -/
theorem osPathDirname_length (p : String) :
    osPathDirname p = p ∨ (osPathDirname p).data.length < p.data.length := by
  rcases dirnameCore_eq_or_lt p.data.reverse with heq | hlt
  · left
    unfold osPathDirname
    rw [heq, List.reverse_reverse]
  · right
    show (dirnameCore p.data.reverse).reverse.length < p.data.length
    rw [List.length_reverse]
    simpa using hlt

/-- A proper dirname is strictly shorter than its argument. -/
theorem osPathDirname_lt_of_ne (p : String) (h : osPathDirname p ≠ p) :
    (osPathDirname p).data.length < p.data.length :=
  (osPathDirname_length p).resolve_left h

/-- The dirname of `d + "/" + f` is `d`, when `d` does not end in a slash
and `f` contains none. -/
theorem osPathDirname_join (d f : String) (ch : Char) (rest : List Char)
    (hd : d.data.reverse = ch :: rest) (hch : ch ≠ '/')
    (hf : ∀ x ∈ f.data, x ≠ '/') :
    osPathDirname (String.mk (d.data ++ '/' :: f.data)) = d := by
  have hrev : (d.data ++ '/' :: f.data).reverse =
      f.data.reverse ++ '/' :: d.data.reverse := by
    rw [List.reverse_append, List.reverse_cons, List.append_assoc,
      List.singleton_append]
  have hdrop : ((d.data ++ '/' :: f.data).reverse).dropWhile
      (fun c => c != '/') = '/' :: d.data.reverse := by
    rw [hrev]
    exact dropWhile_append_slash _ _ (fun x hx => hf x (List.mem_reverse.mp hx))
  show String.mk (dirnameCore (d.data ++ '/' :: f.data).reverse).reverse = d
  unfold dirnameCore
  rw [hdrop, hd]
  have hany : (('/' : Char) :: ch :: rest).any (fun c => c != '/') = true := by
    simp [bne_iff_ne, hch]
  rw [if_pos hany]
  have hs1 : (('/' : Char) == '/') = true := by simp
  have hs2 : (ch == '/') = false := by
    simp only [beq_eq_false_iff_ne]
    exact hch
  rw [List.dropWhile_cons, if_pos hs1, List.dropWhile_cons, if_neg (by simp [hs2])]
  rw [← hd, List.reverse_reverse]

/-- `os.path.join d f` is `d + "/" + f` when `d` is nonempty and does not
end in a slash and `f` is not absolute. -/
theorem osPathJoin_eq (d f : String) (ch : Char) (rest : List Char)
    (hd : d.data.reverse = ch :: rest) (hch : ch ≠ '/')
    (hf : ∀ x ∈ f.data, x ≠ '/') :
    osPathJoin d f = String.mk (d.data ++ '/' :: f.data) := by
  unfold osPathJoin
  have h1 : f.data.head? ≠ some '/' := by
    intro hh
    cases hl : f.data with
    | nil => rw [hl] at hh; cases hh
    | cons a t =>
      rw [hl] at hh
      have ha : a = '/' := Option.some.inj hh
      exact hf a (by rw [hl]; exact List.mem_cons_self _ _) ha
  have h2 : d.data ≠ [] := by
    intro hnil
    rw [hnil] at hd
    simp at hd
  have h3 : d.data.getLast? ≠ some '/' := by
    intro hh
    have hrev2 : d.data.reverse.head? = some '/' := by
      rw [List.head?_reverse]; exact hh
    rw [hd] at hrev2
    exact hch (Option.some.inj hrev2)
  rw [if_neg h1, if_neg h2, if_neg h3]

/-- `makedirs` succeeds on every nonempty path, records the path as an
existing directory, never touches files, and only grows the directory
set. -/
theorem makedirsAux_ok (fuel : Nat) :
    ∀ (fs : FileSystem) (name : String),
      name.data.length < fuel → name ≠ "" →
      ∃ fs1, makedirsAux fuel fs name = Except.ok fs1 ∧ name ∈ fs1.dirs ∧
        fs1.files = fs.files ∧ ∀ x ∈ fs.dirs, x ∈ fs1.dirs := by
  induction fuel with
  | zero => intro fs name h _; exact absurd h (Nat.not_lt_zero _)
  | succ fuel ih =>
    intro fs name hlen hne
    by_cases hg : osPathDirname name ≠ "" ∧ osPathDirname name ≠ name ∧
        osPathDirname name ∉ fs.dirs
    · have hshr : (osPathDirname name).data.length < name.data.length :=
        osPathDirname_lt_of_ne name hg.2.1
      obtain ⟨fs1, hfs1, hmem1, hfiles1, hmono1⟩ :=
        ih fs (osPathDirname name)
          (Nat.lt_of_lt_of_le hshr (Nat.le_of_lt_succ hlen)) hg.1
      refine ⟨FileSystem.mk (name :: fs1.dirs) fs1.files, ?_,
        List.mem_cons_self _ _, hfiles1, ?_⟩
      · simp only [makedirsAux]
        rw [if_pos hg, hfs1]
        simp [hne]
      · intro x hx
        exact List.mem_cons_of_mem _ (hmono1 x hx)
    · refine ⟨FileSystem.mk (name :: fs.dirs) fs.files, ?_,
        List.mem_cons_self _ _, rfl, fun x hx => List.mem_cons_of_mem _ hx⟩
      simp only [makedirsAux]
      rw [if_neg hg]
      simp [hne]

/-- `makedirs` on a nonempty path: success, the path exists afterwards,
files untouched, directories only grow. -/
theorem makedirs_ok (fs : FileSystem) (name : String) (hne : name ≠ "") :
    ∃ fs1, makedirs fs name = Except.ok fs1 ∧ name ∈ fs1.dirs ∧
      fs1.files = fs.files ∧ ∀ x ∈ fs.dirs, x ∈ fs1.dirs :=
  makedirsAux_ok (name.data.length + 1) fs name (Nat.lt_succ_self _) hne

/-! ## Theorems: `write_file` claims -/

/-- Counterexample to claim C4 as stated: with the empty string as the
directory argument, `os.path.dirname` of the target is empty and
`os.makedirs("")` raises `FileNotFoundError` — `write_file` neither
ensures a directory, nor writes, nor returns a status. -/
theorem write_file_counterexample :
    write_file (FileSystem.mk [] []) "" "report.txt" "content" =
      Except.error "FileNotFoundError" := rfl

/-- Claim C4 (amended): for every filesystem, nonempty directory not ending
in a path separator, nonempty separator-free filename, and content,
`write_file` creates the target directory (with parents as needed), writes
the content at `<directory>/<filename>` overwriting any existing file
there, leaves every other file unchanged, and returns the success
status. -/
theorem write_file_creates_and_overwrites
    (fs : FileSystem) (d f c : String) (ch : Char) (rest : List Char)
    (hd : d.data.reverse = ch :: rest) (hch : ch ≠ '/')
    (hf : ∀ x ∈ f.data, x ≠ '/') (_hf0 : f.data ≠ []) :
    ∃ fs2, write_file fs d f c = Except.ok (fs2, [("status", "success")]) ∧
      lookupFile fs2.files (String.mk (d.data ++ '/' :: f.data)) = some c ∧
      d ∈ fs2.dirs ∧
      ∀ p, p ≠ String.mk (d.data ++ '/' :: f.data) →
        lookupFile fs2.files p = lookupFile fs.files p := by
  have hjoin := osPathJoin_eq d f ch rest hd hch hf
  have hdir : osPathDirname (String.mk (d.data ++ '/' :: f.data)) = d :=
    osPathDirname_join d f ch rest hd hch hf
  have hdne : d ≠ "" := by
    intro h0
    rw [h0] at hd
    simp at hd
  obtain ⟨fs1, hmk, hmem, hfiles, _⟩ := makedirs_ok fs d hdne
  refine ⟨FileSystem.mk fs1.dirs
    ((String.mk (d.data ++ '/' :: f.data), c) :: fs1.files), ?_, ?_, hmem, ?_⟩
  · simp only [write_file]
    rw [hjoin, hdir, hmk]
  · simp [lookupFile]
  · intro p hp
    simp only [lookupFile]
    rw [if_neg (fun hh => hp hh.symm), hfiles]

/-- Concrete instance of `write_file_creates_and_overwrites`: writing the
report over an existing `verdicts/Napoleon.txt`. -/
theorem write_file_creates_and_overwrites_witness :
    ∃ fs2, write_file (FileSystem.mk [] [("verdicts/Napoleon.txt", "old")])
        "verdicts" "Napoleon.txt" "new" =
        Except.ok (fs2, [("status", "success")]) ∧
      lookupFile fs2.files
        (String.mk ("verdicts".data ++ '/' :: "Napoleon.txt".data)) =
        some "new" ∧
      "verdicts" ∈ fs2.dirs ∧
      ∀ p, p ≠ String.mk ("verdicts".data ++ '/' :: "Napoleon.txt".data) →
        lookupFile fs2.files p =
          lookupFile (FileSystem.mk []
            [("verdicts/Napoleon.txt", "old")]).files p :=
  write_file_creates_and_overwrites
    (FileSystem.mk [] [("verdicts/Napoleon.txt", "old")])
    "verdicts" "Napoleon.txt" "new" 's' "tcidrev".data (by decide) (by decide)
    (by decide) (by decide)

/-- Claim C10: whenever `write_file` returns normally, its result is
exactly `{"status": "success"}` — it never returns a failure status; an
I/O failure such as the empty directory argument propagates as a raised
exception instead. -/
theorem write_file_status_policy :
    (∀ fs d f c fs2 ret, write_file fs d f c = Except.ok (fs2, ret) →
      ret = [("status", "success")]) ∧
    write_file (FileSystem.mk [] []) "" "x.txt" "c" =
      Except.error "FileNotFoundError" := by
  constructor
  · intro fs d f c fs2 ret h
    simp only [write_file] at h
    cases hm : makedirs fs (osPathDirname (osPathJoin d f)) with
    | error e => rw [hm] at h; exact absurd h (by simp)
    | ok fs1 =>
      rw [hm] at h
      have hpair := (Except.ok.injEq _ _).mp h
      exact ((Prod.mk.injEq _ _ _ _).mp hpair).2.symm
  · rfl

/-- Concrete instance of `write_file_status_policy`: a successful write
returns the success status. -/
theorem write_file_status_policy_witness :
    ([("status", "success")] : List (String × String)) =
      [("status", "success")] :=
  write_file_status_policy.1 (FileSystem.mk [] []) "verdicts" "Example.txt"
    "report"
    (FileSystem.mk ["verdicts"] [("verdicts/Example.txt", "report")])
    [("status", "success")] rfl
